import Mathlib

/-!
# A shallow embedding of the `integration` test-harness package

This file embeds, in Lean, the data model and the operations of the Go
package `internal/integration` (file `integration.go`) together with the
reservation options of `internal/integration/prosody` (file `prosody.go`),
and proves properties of the embedded operations.

Modelling conventions:
* Side effects (directory creation, file creation, listener open/close,
  process start/wait, …) are recorded as an ordered trace of `Event`s in an
  explicit state `Sys`; Go functions become state-passing Lean functions.
* Go closures stored on the `Cmd` (the deferred config-file chain `cfgF`,
  the post-start chain `deferF`, the `shutdown` chain) are defunctionalised
  as ordered lists of registrations; a separate interpreter runs a chain
  exactly the way the Go closure composition does (run the previous chain,
  stop at the first error, then run the newly wrapped function).
* Fallible external calls whose outcome the harness merely observes
  (`net.Listen`, writer callbacks, `prosodyctl`, `Wait`, …) are driven by
  oracles collected in an environment `Env`; `error` values are `Option Err`
  (with `none` for Go's `nil`) and `Err` is `String`.
* `ioutil.TempDir("", base)` is modelled as the deterministic directory
  `"/tmp/" ++ base` (the random suffix is irrelevant to every property).
-/

/-- Go `error` values, modelled as strings (`Option Err` with `none` = `nil`). -/
abbrev Err := String

/-- Split a character list on `'/'` (the slash-separated components of a
path, like `strings.Split(p, "/")`). -/
def splitOnSlash : List Char → List (List Char)
  | [] => [[]]
  | a :: rest =>
    match splitOnSlash rest with
    | [] => [[]]
    | h :: t => if a = '/' then [] :: h :: t else (a :: h) :: t

/-- Join components with `'/'` (the inverse of `splitOnSlash`). -/
def joinSlash : List (List Char) → List Char
  | [] => []
  | [x] => x
  | x :: y :: t => x ++ '/' :: joinSlash (y :: t)

/-- Go `filepath.Dir` for slash-separated paths without redundant separators:
everything but the last element; `"."` when there is no separator. -/
def filepathDir (p : String) : String :=
  match (splitOnSlash p.data).dropLast with
  | [] => "."
  | ds =>
    let d := String.mk (joinSlash ds)
    if d = "" then "/" else d

/-- Go `filepath.Base` for slash-separated paths: the last element. -/
def filepathBase (p : String) : String :=
  match (splitOnSlash p.data).getLast? with
  | none => "."
  | some [] => "."
  | some b => String.mk b

/-- Go `filepath.Join` for two nonempty clean components. -/
def filepathJoin (a b : String) : String := a ++ "/" ++ b

/-- The subset of `x509.ExtKeyUsage` values the harness distinguishes. -/
inductive ExtKeyUsage where
  | clientAuth
  | serverAuth
deriving DecidableEq, Repr

/-- The fields of the `x509.Certificate` template that `Cert`/`ClientCert`
populate (times are seconds since an arbitrary epoch). -/
structure CertTemplate where
  serialNumber : Int
  notBefore : Nat
  notAfter : Nat
  dnsNames : List String
  extKeyUsage : List ExtKeyUsage
deriving DecidableEq, Repr

/-- The DER bytes returned by `x509.CreateCertificate`, determined by the
template and the generated key (keys are identified by a counter). -/
structure CertData where
  tpl : CertTemplate
  keyId : Nat
deriving DecidableEq, Repr

/-- Contents of a file in the temporary directory. -/
inductive Content where
  | empty
  | pemKey (keyId : Nat)
  | pemCert (c : CertData)
deriving DecidableEq, Repr

/-- A deferred file writer passed to `TempFile`: either a symbolic writer
(whose result an oracle decides) or one of the two writers `cert` registers. -/
inductive WriterSpec where
  | sym (wid : Nat)
  | keyW (keyId : Nat)
  | crtW (tpl : CertTemplate) (keyId : Nat)
deriving DecidableEq, Repr

/-- One registration in the defunctionalised `cfgF` chain. -/
structure Reg where
  fileName : String
  writer : WriterSpec
deriving DecidableEq, Repr

/-- Observable side effects, in the order they happen. -/
inductive Event where
  | tempDirCreate (path : String)
  | mkdirAll (path : String)
  | createFile (path : String)
  | invokeWriter (w : WriterSpec)
  | closeFile (path : String)
  | netListen (lid : Nat) (network addr : String)
  | listenerClose (lid : Nat)
  | procStart
  | connAttempt (network : String) (port : Nat)
  | runDefer (d : Nat)
  | stdinClose
  | runShutdown (d : Nat)
  | procWait
  | removeDir (path : String)
deriving DecidableEq, Repr

/-- A `net.Listener`: creation id, requested network and address, and the
OS-assigned port read back from `Addr()`. -/
structure Listener where
  lid : Nat
  network : String
  reqAddr : String
  port : Nat
deriving DecidableEq, Repr

/-- The prosody package's `Config` fields touched by the embedded options. -/
structure ProsodyConfig where
  c2sPort : Nat := 0
  s2sPort : Nat := 0
  compPort : Nat := 0
deriving DecidableEq, Repr

/-- The harness state `Cmd` (`integration.Cmd`), restricted to the fields the
embedded operations read or write. -/
structure Cmd where
  name : String
  cfgDir : String
  args : List String := []
  cfgF : Option (List Reg) := none
  deferF : Option (List Nat) := none
  shutdown : Option (List Nat) := none
  c2sListener : Option Listener := none
  s2sListener : Option Listener := none
  compListener : Option Listener := none
  c2sNetwork : String := ""
  s2sNetwork : String := ""
  compNetwork : String := ""
  clientCrt : Option CertData := none
  clientCrtKey : Option Nat := none
  config : Option ProsodyConfig := none
deriving DecidableEq, Repr

/-- The mutable world: the event trace, the listener and key counters, the
set of currently open listeners, and the files written so far (most recent
write first, so `List.lookup` returns the current contents). -/
structure Sys where
  trace : List Event := []
  nextLid : Nat := 0
  openL : List Nat := []
  nextKey : Nat := 0
  files : List (String × Content) := []
deriving DecidableEq, Repr

/-- Oracles deciding the outcomes of external calls. -/
structure Env where
  /-- result of the symbolic writer with the given id (`none` = success) -/
  wres : Nat → Option Err
  /-- result of the shutdown action with the given id -/
  shRes : Nat → Option Err
  /-- result of the deferred post-start action with the given id -/
  defRes : Nat → Option Err
  /-- `net.Listen` outcome for the n-th listener: assigned port, or failure -/
  listenRes : Nat → Option Nat
  /-- whether the k-th connection attempt to (network, port) succeeds -/
  connectOK : String → Nat → Nat → Bool

def Sys.addEvent (s : Sys) (e : Event) : Sys :=
  { s with trace := s.trace ++ [e] }

def Sys.writeFile (s : Sys) (path : String) (c : Content) : Sys :=
  { s with files := (path, c) :: s.files }

/-- The type of `integration.Option` (named `Opt` because `Option` is taken
by Lean): a function that mutates the `Cmd` or registers deferred work and
may fail. -/
abbrev Opt := Env → Cmd → Sys → Cmd × Sys × Option Err

/-- `net.Listen`: on success, records the listener as open and appends a
`netListen` event; on failure, returns an error and no listener. -/
def netListen (env : Env) (network addr : String) (s : Sys) :
    Sys × Except Err Listener :=
  let lid := s.nextLid
  match env.listenRes lid with
  | some port =>
    ({ s with
       trace := s.trace ++ [.netListen lid network addr],
       nextLid := lid + 1,
       openL := s.openL ++ [lid] },
     .ok ⟨lid, network, addr, port⟩)
  | none => ({ s with nextLid := lid + 1 }, .error "listen: operation failed")

/-- `Listener.Close`: removes the listener from the open set and appends a
`listenerClose` event (close itself is modelled as always succeeding). -/
def Listener.close (l : Listener) (s : Sys) : Sys × Option Err :=
  ({ s with
     trace := s.trace ++ [.listenerClose l.lid],
     openL := s.openL.erase l.lid }, none)

/-- `Cmd.C2SListen`: returns the existing listener if one was recorded,
otherwise calls `net.Listen`, records the listener and the network, and
returns it. -/
def Cmd.C2SListen (env : Env) (network addr : String) (cmd : Cmd) (s : Sys) :
    Cmd × Sys × Except Err Listener :=
  match cmd.c2sListener with
  | some l => (cmd, s, .ok l)
  | none =>
    match netListen env network addr s with
    | (s, .ok l) =>
      ({ cmd with c2sListener := some l, c2sNetwork := network }, s, .ok l)
    | (s, .error e) => ({ cmd with c2sNetwork := network }, s, .error e)

/-- `Cmd.S2SListen`: same shape as `C2SListen` for the s2s role. -/
def Cmd.S2SListen (env : Env) (network addr : String) (cmd : Cmd) (s : Sys) :
    Cmd × Sys × Except Err Listener :=
  match cmd.s2sListener with
  | some l => (cmd, s, .ok l)
  | none =>
    match netListen env network addr s with
    | (s, .ok l) =>
      ({ cmd with s2sListener := some l, s2sNetwork := network }, s, .ok l)
    | (s, .error e) => ({ cmd with s2sNetwork := network }, s, .error e)

/-- `Cmd.ComponentListen`: same shape as `C2SListen` for the component role. -/
def Cmd.ComponentListen (env : Env) (network addr : String) (cmd : Cmd) (s : Sys) :
    Cmd × Sys × Except Err Listener :=
  match cmd.compListener with
  | some l => (cmd, s, .ok l)
  | none =>
    match netListen env network addr s with
    | (s, .ok l) =>
      ({ cmd with compListener := some l, compNetwork := network }, s, .ok l)
    | (s, .error e) => ({ cmd with compNetwork := network }, s, .error e)

/-- `Cmd.ClientCert` (the method): packages the retained client certificate
bytes and private key as a TLS identity; it never fails and never inspects
the request info. -/
def Cmd.clientCertMethod (cmd : Cmd) :
    (List (Option CertData) × Option Nat) × Option Err :=
  (([cmd.clientCrt], cmd.clientCrtKey), none)

/-- `integration.TempFile`: at registration time, create the intermediate
directories implied by the relative path (when it has any), then append the
(file name, writer) pair to the deferred `cfgF` chain, wrapping any
previously registered chain. -/
def TempFile (cfgFileName : String) (f : WriterSpec) : Opt :=
  fun _ cmd s =>
    let dir := filepathDir cfgFileName
    let s :=
      if dir ≠ "" && dir ≠ "." && dir ≠ "/" && dir ≠ ".." then
        s.addEvent (.mkdirAll (filepathJoin cmd.cfgDir dir))
      else s
    let cmd := { cmd with cfgF := some (cmd.cfgF.getD [] ++ [⟨cfgFileName, f⟩]) }
    (cmd, s, none)

/-- Run one writer callback `f(cmd, cfgFile)`: symbolic writers report the
oracle's verdict; the key writer PEM-encodes the key into the file; the
certificate writer creates the certificate, retains it on the `Cmd` when the
template's first extended key usage is client auth, and PEM-encodes it. -/
def runWriter (env : Env) (w : WriterSpec) (cmd : Cmd) (path : String) (s : Sys) :
    Cmd × Sys × Option Err :=
  match w with
  | .sym wid => (cmd, s, env.wres wid)
  | .keyW k => (cmd, s.writeFile path (.pemKey k), none)
  | .crtW tpl k =>
    let c : CertData := ⟨tpl, k⟩
    let cmd :=
      if tpl.extKeyUsage.head? = some .clientAuth then
        { cmd with clientCrt := some c, clientCrtKey := some k }
      else cmd
    (cmd, s.writeFile path (.pemCert c), none)

/-- The body of the `newF` closure built by `TempFile`: create the file,
invoke the writer with the `Cmd` and the open handle, and close the file on
both the success and the failure path. -/
def runNewF (env : Env) (reg : Reg) (cmd : Cmd) (s : Sys) :
    Cmd × Sys × Option Err :=
  let path := filepathJoin cmd.cfgDir reg.fileName
  let s := (s.addEvent (.createFile path)).writeFile path .empty
  let s := s.addEvent (.invokeWriter reg.writer)
  match runWriter env reg.writer cmd path s with
  | (cmd, s, some e) => (cmd, s.addEvent (.closeFile path), some e)
  | (cmd, s, none) => (cmd, s.addEvent (.closeFile path), none)

/-- The composed `cfgF` closure: run the registrations in order, stopping at
the first failure (each later registration wraps the previous chain). -/
def runChain (env : Env) : List Reg → Cmd → Sys → Cmd × Sys × Option Err
  | [], cmd, s => (cmd, s, none)
  | r :: rs, cmd, s =>
    match runNewF env r cmd s with
    | (cmd, s, some e) => (cmd, s, some e)
    | (cmd, s, none) => runChain env rs cmd s

/-- `integration.Shutdown`: append the action to the shutdown chain,
wrapping any previously registered chain. -/
def Shutdown (d : Nat) : Opt :=
  fun _ cmd s =>
    ({ cmd with shutdown := some (cmd.shutdown.getD [] ++ [d]) }, s, none)

/-- `integration.Defer`: append the action to the post-start chain,
wrapping any previously registered chain. -/
def Defer (d : Nat) : Opt :=
  fun _ cmd s =>
    ({ cmd with deferF := some (cmd.deferF.getD [] ++ [d]) }, s, none)

/-- The composed shutdown closure: run the actions in order, stopping at the
first failure. -/
def runShutdownChain (env : Env) : List Nat → Sys → Sys × Option Err
  | [], s => (s, none)
  | d :: ds, s =>
    let s := s.addEvent (.runShutdown d)
    match env.shRes d with
    | some e => (s, some e)
    | none => runShutdownChain env ds s

/-- The composed post-start closure: run the actions in order, stopping at
the first failure. -/
def runDeferChain (env : Env) : List Nat → Sys → Sys × Option Err
  | [], s => (s, none)
  | d :: ds, s =>
    let s := s.addEvent (.runDefer d)
    match env.defRes d with
    | some e => (s, some e)
    | none => runDeferChain env ds s

/-- `integration.cert`: generate a fresh key, register a writer for
`name.key`, then (when that registration succeeded) register a writer for
`name.crt` built from the given template. -/
def cert (name : String) (crt : CertTemplate) : Opt :=
  fun env cmd s =>
    let key := s.nextKey
    let s := { s with nextKey := key + 1 }
    match TempFile (name ++ ".key") (.keyW key) env cmd s with
    | (cmd, s, some e) => (cmd, s, some e)
    | (cmd, s, none) => TempFile (name ++ ".crt") (.crtW crt key) env cmd s

/-- `integration.Cert`: a certificate valid from `now` (the instant
`time.Now()` returns) for 365 days, whose DNS name is the base of `name`.
The two `time.Now()` calls of the source are modelled as the same instant. -/
def Cert (name : String) (now : Nat) : Opt :=
  cert name
    { serialNumber := 1, notBefore := now,
      notAfter := now + 365 * 24 * 3600,
      dnsNames := [filepathBase name], extKeyUsage := [] }

/-- `integration.ClientCert` (the option): like `Cert` but with the
client-auth extended key usage. -/
def ClientCert (name : String) (now : Nat) : Opt :=
  cert name
    { serialNumber := 1, notBefore := now,
      notAfter := now + 365 * 24 * 3600,
      dnsNames := [filepathBase name],
      extKeyUsage := [.clientAuth] }

/-- Apply the options in order, stopping at the first failure and wrapping
its error the way `New` does. -/
def applyOpts (env : Env) : List Opt → Cmd → Sys → Cmd × Sys × Option Err
  | [], cmd, s => (cmd, s, none)
  | o :: os, cmd, s =>
    match o env cmd s with
    | (cmd, s, some e) => (cmd, s, some ("error applying option: " ++ e))
    | (cmd, s, none) => applyOpts env os cmd s

/-- `integration.New`: create the temporary directory, apply the options in
order, then (when a deferred chain was registered) run it; any failure
returns an error and no `Cmd`. -/
def New (env : Env) (name : String) (opts : List Opt) (s : Sys) :
    Sys × Except Err Cmd :=
  let cfgDir := "/tmp/" ++ filepathBase name
  let s := s.addEvent (.tempDirCreate cfgDir)
  let cmd : Cmd := { name := name, cfgDir := cfgDir }
  match applyOpts env opts cmd s with
  | (_, s, some e) => (s, .error e)
  | (cmd, s, none) =>
    match cmd.cfgF with
    | none => (s, .ok cmd)
    | some regs =>
      match runChain env regs cmd s with
      | (cmd, s, none) => (s, .ok cmd)
      | (_, s, some e) => (s, .error ("error running config func: " ++ e))

/-- `Cmd.Close`: close stdin (returning `nil` when that fails), run the
shutdown chain, wait for the process (surfacing a wait failure before any
directory removal), remove the temporary directory, and finally surface the
shutdown chain's error. The `removeDir` event is appended only when removal
succeeds. -/
def Cmd.Close (env : Env) (stdinRes waitRes rmRes : Option Err) (cmd : Cmd)
    (s : Sys) : Sys × Option Err :=
  let s := s.addEvent .stdinClose
  match stdinRes with
  | some _ => (s, none)
  | none =>
    let se :=
      match cmd.shutdown with
      | none => (s, none)
      | some ds => runShutdownChain env ds s
    let s := se.1.addEvent .procWait
    match waitRes with
    | some we => (s, some we)
    | none =>
      match rmRes with
      | some re => (s, some re)
      | none => (s.addEvent (.removeDir cmd.cfgDir), se.2)

/-- Modelled from the spec: the body of `waitSocket` is not under `src/`
(only its call sites in `Test` are). The spec says the harness "polls by
attempting a connection to the reserved address until it succeeds or a
bounded retry budget is exhausted, at which point startup fails fatally".
`budget` is the remaining retry budget and `k` counts the attempts made. -/
def waitSocket (env : Env) (network : String) (port : Nat) :
    Nat → Nat → Sys → Sys × Option Err
  | 0, _, s => (s, some "socket did not become live")
  | budget + 1, k, s =>
    let s := s.addEvent (.connAttempt network port)
    if env.connectOK network port k then (s, none)
    else waitSocket env network port budget (k + 1) s

/-- The guarded socket wait of `integration.Test`: poll the reserved socket
when one was recorded for the role, otherwise do nothing (the body of
`if cmd.c2sListener != nil { waitSocket(...) }`). -/
def sockWait (env : Env) (budget : Nat) (ol : Option Listener) (net : String)
    (s : Sys) : Sys × Option Err :=
  match ol with
  | none => (s, none)
  | some l => waitSocket env net l.port budget 0 s

/-- The guarded post-start chain of `integration.Test`: run the deferred
chain when one was registered (the body of `if cmd.deferF != nil { ... }`). -/
def runDeferF (env : Env) (df : Option (List Nat)) (s : Sys) :
    Sys × Option Err :=
  match df with
  | none => (s, none)
  | some ds => runDeferChain env ds s

/-- The startup sequence of `integration.Test` after `New` succeeded: start
the process, wait for the c2s socket when one was reserved, wait for the s2s
socket when one was reserved, then run the post-start chain when one was
registered. A `some` result corresponds to `t.Fatal`. -/
def testStartup (env : Env) (startRes : Option Err) (budget : Nat) (cmd : Cmd)
    (s : Sys) : Sys × Option Err :=
  let s := s.addEvent .procStart
  match startRes with
  | some e => (s, some e)
  | none =>
    let sc := sockWait env budget cmd.c2sListener cmd.c2sNetwork s
    match sc.2 with
    | some e => (sc.1, some e)
    | none =>
      let ss := sockWait env budget cmd.s2sListener cmd.s2sNetwork sc.1
      match ss.2 with
      | some e => (ss.1, some e)
      | none => runDeferF env cmd.deferF ss.1

/-- `prosody.getConfig`: the opaque `cmd.Config` value, defaulting to the
zero config. -/
def getConfig (cmd : Cmd) : ProsodyConfig := cmd.config.getD {}

/-- `prosody.ListenC2S`: reserve the c2s socket via `C2SListen("tcp", ":0")`,
read the assigned port, close the probe listener, and record the port in the
prosody config. -/
def ListenC2S : Opt :=
  fun env cmd s =>
    match Cmd.C2SListen env "tcp" ":0" cmd s with
    | (cmd, s, .error e) => (cmd, s, some e)
    | (cmd, s, .ok l) =>
      let c2sPort := l.port
      let sc := l.close s
      let cfg := getConfig cmd
      ({ cmd with config := some { cfg with c2sPort := c2sPort } }, sc.1, none)

/-- The closure returned by `integration.Test`: a counter starting at `-1`,
incremented before each subtest, naming the subtest
`filepath.Base(name) ++ "/" ++ <counter>`. -/
structure SubtestRunner where
  base : String
  i : Int
deriving DecidableEq, Repr

/-- Decimal digits of a natural number as printed by `fmt`'s `%d` verb. -/
def decRepr (n : Nat) : String :=
  if n = 0 then "0"
  else String.mk (((Nat.digits 10 n).reverse).map Nat.digitChar)

/-- `%d` for Go `int` values. -/
def intRepr (i : Int) : String :=
  if i < 0 then "-" ++ decRepr (-i).toNat else decRepr i.toNat

/-- The runner handed back by `Test` for a process named `name`. -/
def runnerInit (name : String) : SubtestRunner := ⟨filepathBase name, -1⟩

/-- One invocation of the subtest runner: increment the counter, then name
the child test `fmt.Sprintf("%s/%d", filepath.Base(name), i)`. -/
def SubtestRunner.invoke (r : SubtestRunner) : SubtestRunner × String :=
  let i := r.i + 1
  (⟨r.base, i⟩, r.base ++ "/" ++ intRepr i)

/-- `n` successive invocations of the subtest runner, returning the child
test names in call order. -/
def SubtestRunner.invokeN : SubtestRunner → Nat → SubtestRunner × List String
  | r, 0 => (r, [])
  | r, n + 1 =>
    let rs := r.invoke
    let rest := invokeN rs.1 n
    (rest.1, rs.2 :: rest.2)

/-! ## Concrete fixtures used by witnesses and counterexamples -/

/-- An environment in which every external call succeeds and the n-th
listener gets port `5000 + n`. -/
def env0 : Env where
  wres := fun _ => none
  shRes := fun _ => none
  defRes := fun _ => none
  listenRes := fun n => some (5000 + n)
  connectOK := fun _ _ _ => true

/-- The empty initial world. -/
def s0 : Sys := {}

/-- A freshly constructed command. -/
def cmd0 : Cmd := { name := "prosody", cfgDir := "/tmp/prosody" }

/-- An environment whose shutdown actions all fail. -/
def envSh : Env := { env0 with shRes := fun _ => some "shutdown failed" }

/-- A command with one registered shutdown action. -/
def cmdSh : Cmd := { cmd0 with shutdown := some [7] }

/-! ## C10 -/

/-- C10: when closing the standard-input pipe fails, `Cmd.Close` returns
`nil` immediately: the only side effect is the stdin-close attempt — the
shutdown chain does not run, the process is not waited on, and the
temporary directory is not removed. -/
theorem C10_close_stdin_error_returns_nil (env : Env) (e : Err)
    (wr rr : Option Err) (cmd : Cmd) (s : Sys) :
    (Cmd.Close env (some e) wr rr cmd s).2 = none ∧
      (Cmd.Close env (some e) wr rr cmd s).1.trace = s.trace ++ [.stdinClose] :=
  ⟨rfl, rfl⟩

/-! ## C3 -/

/-- C3: if the shutdown action chain fails with error `e`, `Cmd.Close`
still executes the wait-for-exit step, and (when wait and directory removal
succeed) still surfaces `e` to the caller. -/
theorem C3_shutdown_failure_still_waits (env : Env) (cmd : Cmd) (s : Sys)
    (ds : List Nat) (e : Err) (hsd : cmd.shutdown = some ds)
    (hfail : (runShutdownChain env ds (s.addEvent .stdinClose)).2 = some e) :
    (Cmd.Close env none none none cmd s).2 = some e ∧
      Event.procWait ∈ (Cmd.Close env none none none cmd s).1.trace := by
  simp only [Cmd.Close, hsd]
  refine ⟨hfail, ?_⟩
  simp [Sys.addEvent]

/-- Witness for C3 at a concrete command and environment. -/
theorem C3_witness :
    (Cmd.Close envSh none none none cmdSh s0).2 = some "shutdown failed" ∧
      Event.procWait ∈ (Cmd.Close envSh none none none cmdSh s0).1.trace :=
  C3_shutdown_failure_still_waits envSh cmdSh s0 [7] "shutdown failed" rfl rfl

/-! ## C2 -/

/-- Repeated calls to `C2SListen` with the given argument pairs. -/
def c2sCalls (env : Env) :
    List (String × String) → Cmd → Sys → Cmd × Sys × List (Except Err Listener)
  | [], cmd, s => (cmd, s, [])
  | a :: rest, cmd, s =>
    let r := Cmd.C2SListen env a.1 a.2 cmd s
    let t := c2sCalls env rest r.1 r.2.1
    (t.1, t.2.1, r.2.2 :: t.2.2)

/-- Repeated calls to `S2SListen` with the given argument pairs. -/
def s2sCalls (env : Env) :
    List (String × String) → Cmd → Sys → Cmd × Sys × List (Except Err Listener)
  | [], cmd, s => (cmd, s, [])
  | a :: rest, cmd, s =>
    let r := Cmd.S2SListen env a.1 a.2 cmd s
    let t := s2sCalls env rest r.1 r.2.1
    (t.1, t.2.1, r.2.2 :: t.2.2)

/-- Repeated calls to `ComponentListen` with the given argument pairs. -/
def compCalls (env : Env) :
    List (String × String) → Cmd → Sys → Cmd × Sys × List (Except Err Listener)
  | [], cmd, s => (cmd, s, [])
  | a :: rest, cmd, s =>
    let r := Cmd.ComponentListen env a.1 a.2 cmd s
    let t := compCalls env rest r.1 r.2.1
    (t.1, t.2.1, r.2.2 :: t.2.2)

lemma c2sCalls_existing (env : Env) (args : List (String × String)) (cmd : Cmd)
    (s : Sys) (l : Listener) (h : cmd.c2sListener = some l) :
    c2sCalls env args cmd s = (cmd, s, args.map fun _ => .ok l) := by
  induction args with
  | nil => rfl
  | cons a rest ih => simp [c2sCalls, Cmd.C2SListen, h, ih]

lemma s2sCalls_existing (env : Env) (args : List (String × String)) (cmd : Cmd)
    (s : Sys) (l : Listener) (h : cmd.s2sListener = some l) :
    s2sCalls env args cmd s = (cmd, s, args.map fun _ => .ok l) := by
  induction args with
  | nil => rfl
  | cons a rest ih => simp [s2sCalls, Cmd.S2SListen, h, ih]

lemma compCalls_existing (env : Env) (args : List (String × String)) (cmd : Cmd)
    (s : Sys) (l : Listener) (h : cmd.compListener = some l) :
    compCalls env args cmd s = (cmd, s, args.map fun _ => .ok l) := by
  induction args with
  | nil => rfl
  | cons a rest ih => simp [compCalls, Cmd.ComponentListen, h, ih]

/-- C2: for each of the three roles, the first reservation call creates the
probe listener (exactly one `netListen` event) and records it; every
subsequent call — with any arguments — returns the identical recorded
reservation, leaves the command and the world unchanged, and creates no new
listener. -/
theorem C2_idempotent_reservation (env : Env) (cmd : Cmd) (s : Sys)
    (network addr : String) (args : List (String × String)) (p : Nat)
    (hp : env.listenRes s.nextLid = some p) :
    (cmd.c2sListener = none →
      c2sCalls env ((network, addr) :: args) cmd s =
        ({ cmd with c2sListener := some ⟨s.nextLid, network, addr, p⟩,
                    c2sNetwork := network },
         { s with trace := s.trace ++ [.netListen s.nextLid network addr],
                  nextLid := s.nextLid + 1, openL := s.openL ++ [s.nextLid] },
         .ok ⟨s.nextLid, network, addr, p⟩ ::
           args.map fun _ => .ok ⟨s.nextLid, network, addr, p⟩)) ∧
    (cmd.s2sListener = none →
      s2sCalls env ((network, addr) :: args) cmd s =
        ({ cmd with s2sListener := some ⟨s.nextLid, network, addr, p⟩,
                    s2sNetwork := network },
         { s with trace := s.trace ++ [.netListen s.nextLid network addr],
                  nextLid := s.nextLid + 1, openL := s.openL ++ [s.nextLid] },
         .ok ⟨s.nextLid, network, addr, p⟩ ::
           args.map fun _ => .ok ⟨s.nextLid, network, addr, p⟩)) ∧
    (cmd.compListener = none →
      compCalls env ((network, addr) :: args) cmd s =
        ({ cmd with compListener := some ⟨s.nextLid, network, addr, p⟩,
                    compNetwork := network },
         { s with trace := s.trace ++ [.netListen s.nextLid network addr],
                  nextLid := s.nextLid + 1, openL := s.openL ++ [s.nextLid] },
         .ok ⟨s.nextLid, network, addr, p⟩ ::
           args.map fun _ => .ok ⟨s.nextLid, network, addr, p⟩)) := by
  refine ⟨fun h => ?_, fun h => ?_, fun h => ?_⟩
  · have hrest := c2sCalls_existing env args
      { cmd with c2sListener := some ⟨s.nextLid, network, addr, p⟩,
                 c2sNetwork := network }
      { s with trace := s.trace ++ [.netListen s.nextLid network addr],
               nextLid := s.nextLid + 1, openL := s.openL ++ [s.nextLid] }
      ⟨s.nextLid, network, addr, p⟩ rfl
    simp [c2sCalls, Cmd.C2SListen, h, netListen, hp, hrest]
  · have hrest := s2sCalls_existing env args
      { cmd with s2sListener := some ⟨s.nextLid, network, addr, p⟩,
                 s2sNetwork := network }
      { s with trace := s.trace ++ [.netListen s.nextLid network addr],
               nextLid := s.nextLid + 1, openL := s.openL ++ [s.nextLid] }
      ⟨s.nextLid, network, addr, p⟩ rfl
    simp [s2sCalls, Cmd.S2SListen, h, netListen, hp, hrest]
  · have hrest := compCalls_existing env args
      { cmd with compListener := some ⟨s.nextLid, network, addr, p⟩,
                 compNetwork := network }
      { s with trace := s.trace ++ [.netListen s.nextLid network addr],
               nextLid := s.nextLid + 1, openL := s.openL ++ [s.nextLid] }
      ⟨s.nextLid, network, addr, p⟩ rfl
    simp [compCalls, Cmd.ComponentListen, h, netListen, hp, hrest]

/-- Witness for C2: two c2s calls with different arguments on a fresh
command yield one listener creation and two identical reservations. -/
theorem C2_witness :
    c2sCalls env0 [("tcp", ":0"), ("udp", "[::1]:99")] cmd0 s0 =
      ({ cmd0 with c2sListener := some ⟨0, "tcp", ":0", 5000⟩,
                   c2sNetwork := "tcp" },
       { s0 with trace := [.netListen 0 "tcp" ":0"], nextLid := 1,
                 openL := [0] },
       [.ok ⟨0, "tcp", ":0", 5000⟩, .ok ⟨0, "tcp", ":0", 5000⟩]) := by
  simpa using
    (C2_idempotent_reservation env0 cmd0 s0 "tcp" ":0" [("udp", "[::1]:99")]
      5000 rfl).1 rfl

/-! ## C6 -/

/-- C6: the first reservation for the c2s role (the prosody `ListenC2S`
option) opens a real listener on the requested transport and address,
immediately closes it, and records the transport, the assigned listener
address, and the assigned port on the command before returning. -/
theorem C6_reserve_open_close_record (env : Env) (cmd : Cmd) (s : Sys)
    (p : Nat) (hnone : cmd.c2sListener = none) (hopen : s.nextLid ∉ s.openL)
    (hp : env.listenRes s.nextLid = some p) :
    (ListenC2S env cmd s).2.2 = none ∧
    (ListenC2S env cmd s).2.1.trace =
      s.trace ++ [.netListen s.nextLid "tcp" ":0",
        .listenerClose s.nextLid] ∧
    (ListenC2S env cmd s).2.1.openL = s.openL ∧
    (ListenC2S env cmd s).1.c2sNetwork = "tcp" ∧
    (ListenC2S env cmd s).1.c2sListener = some ⟨s.nextLid, "tcp", ":0", p⟩ ∧
    (getConfig (ListenC2S env cmd s).1).c2sPort = p := by
  simp [ListenC2S, Cmd.C2SListen, hnone, netListen, hp, Listener.close,
    getConfig, List.erase_append_right _ hopen]

/-- Witness for C6 at a fresh command in the all-success environment. -/
theorem C6_witness :
    (ListenC2S env0 cmd0 s0).2.2 = none ∧
    (ListenC2S env0 cmd0 s0).2.1.trace =
      s0.trace ++ [.netListen 0 "tcp" ":0", .listenerClose 0] ∧
    (ListenC2S env0 cmd0 s0).2.1.openL = s0.openL ∧
    (ListenC2S env0 cmd0 s0).1.c2sNetwork = "tcp" ∧
    (ListenC2S env0 cmd0 s0).1.c2sListener = some ⟨0, "tcp", ":0", 5000⟩ ∧
    (getConfig (ListenC2S env0 cmd0 s0).1).c2sPort = 5000 :=
  C6_reserve_open_close_record env0 cmd0 s0 5000 rfl (by simp [s0]) rfl

/-! ## C4 -/

/-- An option that only ever appends to the event trace (every option of the
source package does). -/
def TraceMono (o : Opt) : Prop :=
  ∀ env cmd s, ∃ t, ((o env cmd s).2.1).trace = s.trace ++ t

lemma applyOpts_traceMono (env : Env) (opts : List Opt)
    (h : ∀ o ∈ opts, TraceMono o) (cmd : Cmd) (s : Sys) :
    ∃ t, ((applyOpts env opts cmd s).2.1).trace = s.trace ++ t := by
  induction opts generalizing cmd s with
  | nil => exact ⟨[], by simp [applyOpts]⟩
  | cons o os ih =>
    obtain ⟨t1, ht1⟩ := h o (by simp) env cmd s
    rcases ho : o env cmd s with ⟨cmd1, s1, e⟩
    simp [ho] at ht1
    cases e with
    | some e => exact ⟨t1, by simp [applyOpts, ho, ht1]⟩
    | none =>
      obtain ⟨t2, ht2⟩ := ih (fun o ho => h o (by simp [ho])) cmd1 s1
      exact ⟨t1 ++ t2, by simp [applyOpts, ho, ht2, ht1]⟩

lemma runWriter_trace (env : Env) (w : WriterSpec) (cmd : Cmd) (path : String)
    (s : Sys) : ((runWriter env w cmd path s).2.1).trace = s.trace := by
  cases w <;> simp [runWriter, Sys.writeFile]

/-- `runNewF` in equation form: run the writer on the state holding the
create and invoke events, then append the close event. -/
lemma runNewF_eq (env : Env) (reg : Reg) (cmd : Cmd) (s : Sys) :
    runNewF env reg cmd s =
      (let path := filepathJoin cmd.cfgDir reg.fileName
       let rw := runWriter env reg.writer cmd path
         (((s.addEvent (.createFile path)).writeFile path .empty).addEvent
           (.invokeWriter reg.writer))
       (rw.1, rw.2.1.addEvent (.closeFile path), rw.2.2)) := by
  rcases hw : runWriter env reg.writer cmd
      (filepathJoin cmd.cfgDir reg.fileName)
      (((s.addEvent (.createFile (filepathJoin cmd.cfgDir reg.fileName))).writeFile
          (filepathJoin cmd.cfgDir reg.fileName) .empty).addEvent
        (.invokeWriter reg.writer)) with ⟨c1, s1, e⟩
  cases e <;> simp [runNewF, hw]

lemma runNewF_trace (env : Env) (reg : Reg) (cmd : Cmd) (s : Sys) :
    ((runNewF env reg cmd s).2.1).trace =
      s.trace ++ [.createFile (filepathJoin cmd.cfgDir reg.fileName),
        .invokeWriter reg.writer,
        .closeFile (filepathJoin cmd.cfgDir reg.fileName)] := by
  rw [runNewF_eq]
  simp [runWriter_trace, Sys.addEvent, Sys.writeFile]

lemma runChain_traceMono (env : Env) (regs : List Reg) (cmd : Cmd) (s : Sys) :
    ∃ t, (((runChain env regs cmd s).2.1)).trace = s.trace ++ t := by
  induction regs generalizing cmd s with
  | nil => exact ⟨[], by simp [runChain]⟩
  | cons r rs ih =>
    have htr := runNewF_trace env r cmd s
    rcases hr : runNewF env r cmd s with ⟨cmd1, s1, e⟩
    simp [hr] at htr
    cases e with
    | some e =>
      exact ⟨[.createFile (filepathJoin cmd.cfgDir r.fileName),
        .invokeWriter r.writer,
        .closeFile (filepathJoin cmd.cfgDir r.fileName)],
        by simp [runChain, hr, htr]⟩
    | none =>
      obtain ⟨t2, ht2⟩ := ih cmd1 s1
      exact ⟨[.createFile (filepathJoin cmd.cfgDir r.fileName),
        .invokeWriter r.writer,
        .closeFile (filepathJoin cmd.cfgDir r.fileName)] ++ t2,
        by simp [runChain, hr, ht2, htr]⟩

lemma runShutdownChain_shape (env : Env) (ds : List Nat) (s : Sys) :
    ∃ t, (runShutdownChain env ds s).1 = { s with trace := s.trace ++ t } ∧
      ∀ e ∈ t, ∃ d, e = Event.runShutdown d := by
  induction ds generalizing s with
  | nil => exact ⟨[], by simp [runShutdownChain], by simp⟩
  | cons d ds ih =>
    cases hd : env.shRes d with
    | some e =>
      exact ⟨[.runShutdown d], by simp [runShutdownChain, hd, Sys.addEvent],
        by simp⟩
    | none =>
      obtain ⟨t, ht, htEv⟩ := ih (s.addEvent (.runShutdown d))
      simp only [Sys.addEvent] at ht
      refine ⟨.runShutdown d :: t, ?_, ?_⟩
      · simp [runShutdownChain, hd, Sys.addEvent, ht]
      · intro e he
        rcases List.mem_cons.1 he with rfl | he
        · exact ⟨d, rfl⟩
        · exact htEv e he

/-- `Cmd.Close` on the non-stdin-failure path, in shape form: the appended
events are the stdin close, the shutdown actions, the process wait, and — 
exactly when both wait and removal succeed — the directory removal. -/
lemma Close_shape (env : Env) (cmd : Cmd) (s : Sys) (wr rr : Option Err) :
    ∃ t e2, (∀ e ∈ t, ∃ d, e = Event.runShutdown d) ∧
      (∀ w, wr = some w →
        Cmd.Close env none wr rr cmd s =
          ({ s with trace := s.trace ++ .stdinClose :: (t ++ [.procWait]) },
           some w)) ∧
      (∀ re, wr = none → rr = some re →
        Cmd.Close env none wr rr cmd s =
          ({ s with trace := s.trace ++ .stdinClose :: (t ++ [.procWait]) },
           some re)) ∧
      (wr = none → rr = none →
        Cmd.Close env none wr rr cmd s =
          ({ s with trace := s.trace ++ .stdinClose ::
              (t ++ [.procWait, .removeDir cmd.cfgDir]) }, e2)) := by
  cases hsd : cmd.shutdown with
  | none =>
    refine ⟨[], none, by simp, ?_, ?_, ?_⟩
    · rintro w rfl
      simp [Cmd.Close, hsd, Sys.addEvent]
    · rintro re rfl rfl
      simp [Cmd.Close, hsd, Sys.addEvent]
    · rintro rfl rfl
      simp [Cmd.Close, hsd, Sys.addEvent]
  | some ds =>
    obtain ⟨t, ht, htEv⟩ :=
      runShutdownChain_shape env ds (s.addEvent .stdinClose)
    refine ⟨t, (runShutdownChain env ds (s.addEvent .stdinClose)).2, htEv,
      ?_, ?_, ?_⟩
    · rintro w rfl
      simp only [Cmd.Close, hsd]
      rw [ht]
      simp [Sys.addEvent]
    · rintro re rfl rfl
      simp only [Cmd.Close, hsd]
      rw [ht]
      simp [Sys.addEvent]
    · rintro rfl rfl
      simp only [Cmd.Close, hsd]
      rw [ht]
      simp [Sys.addEvent]

lemma removeDir_not_in_pre (p : String) (t : List Event)
    (htEv : ∀ e ∈ t, ∃ d, e = Event.runShutdown d) :
    Event.removeDir p ∉ Event.stdinClose :: (t ++ [Event.procWait]) := by
  intro hmem
  rcases List.mem_cons.1 hmem with h1 | hmem
  · cases h1
  rcases List.mem_append.1 hmem with h1 | h1
  · obtain ⟨d, hd⟩ := htEv _ h1
    cases hd
  · rcases List.mem_singleton.1 h1

/-- C4: the temporary directory is created by `New` before any option runs
(its creation event precedes everything the options append); `Close` removes
it only after a successful process wait (the removal event, when present,
follows the wait event and forces both wait and removal to have succeeded);
and when the wait fails, `Close` surfaces the wait error and does not remove
the directory. -/
theorem C4_directory_lifecycle (env : Env) :
    (∀ name opts s, (∀ o ∈ opts, TraceMono o) →
      ∃ t, (New env name opts s).1.trace =
        s.trace ++ .tempDirCreate ("/tmp/" ++ filepathBase name) :: t) ∧
    (∀ cmd s w rr,
      (Cmd.Close env none (some w) rr cmd s).2 = some w ∧
      Event.removeDir cmd.cfgDir ∉
        (Cmd.Close env none (some w) rr cmd s).1.trace.drop s.trace.length) ∧
    (∀ cmd s wr rr,
      Event.removeDir cmd.cfgDir ∈
        (Cmd.Close env none wr rr cmd s).1.trace.drop s.trace.length →
      wr = none ∧ rr = none ∧
      ∃ t, (Cmd.Close env none wr rr cmd s).1.trace.drop s.trace.length =
        t ++ [Event.procWait, Event.removeDir cmd.cfgDir]) := by
  refine ⟨?_, ?_, ?_⟩
  · intro name opts s h
    obtain ⟨t1, ht1⟩ := applyOpts_traceMono env opts h
      { name := name, cfgDir := "/tmp/" ++ filepathBase name }
      (s.addEvent (.tempDirCreate ("/tmp/" ++ filepathBase name)))
    simp only [New]
    rcases ha : applyOpts env opts
        { name := name, cfgDir := "/tmp/" ++ filepathBase name }
        (s.addEvent (.tempDirCreate ("/tmp/" ++ filepathBase name)))
      with ⟨cmd1, s1, e⟩
    simp only [Sys.addEvent] at ha ht1
    rw [ha] at ht1
    simp at ht1
    cases e with
    | some e =>
      exact ⟨t1, by simpa using ht1⟩
    | none =>
      cases hcf : cmd1.cfgF with
      | none => exact ⟨t1, by simp [hcf]; simpa using ht1⟩
      | some regs =>
        simp only [hcf]
        obtain ⟨t2, ht2⟩ := runChain_traceMono env regs cmd1 s1
        rcases hc : runChain env regs cmd1 s1 with ⟨cmd2, s2, e2⟩
        rw [hc] at ht2
        simp at ht2
        cases e2 with
        | none =>
          exact ⟨t1 ++ t2, by simp [ht2, ht1]⟩
        | some e2 =>
          exact ⟨t1 ++ t2, by simp [ht2, ht1]⟩
  · intro cmd s w rr
    obtain ⟨t, e2, htEv, hw, _, _⟩ := Close_shape env cmd s (some w) rr
    rw [hw w rfl]
    exact ⟨rfl, by simpa [List.drop_left] using removeDir_not_in_pre cmd.cfgDir t htEv⟩
  · intro cmd s wr rr hmem
    obtain ⟨t, e2, htEv, hw, hre, hok⟩ := Close_shape env cmd s wr rr
    cases wr with
    | some w =>
      rw [hw w rfl] at hmem
      simp only [List.drop_left] at hmem
      exact absurd hmem (removeDir_not_in_pre cmd.cfgDir t htEv)
    | none =>
      cases rr with
      | some re =>
        rw [hre re rfl rfl] at hmem
        simp only [List.drop_left] at hmem
        exact absurd hmem (removeDir_not_in_pre cmd.cfgDir t htEv)
      | none =>
        refine ⟨rfl, rfl, Event.stdinClose :: t, ?_⟩
        rw [hok rfl rfl]
        simp [List.drop_left]

/-- Witness for C4: a construction with no options and teardowns of a fresh
command, at concrete inputs. -/
theorem C4_witness :
    (∃ t, (New env0 "prosody" [] s0).1.trace =
      s0.trace ++ .tempDirCreate ("/tmp/" ++ filepathBase "prosody") :: t) ∧
    ((Cmd.Close env0 none (some "wait failed") none cmd0 s0).2 =
        some "wait failed" ∧
      Event.removeDir cmd0.cfgDir ∉
        (Cmd.Close env0 none (some "wait failed") none cmd0
          s0).1.trace.drop s0.trace.length) ∧
    (none = (none : Option Err) ∧ none = (none : Option Err) ∧
      ∃ t, (Cmd.Close env0 none none none cmd0 s0).1.trace.drop
          s0.trace.length =
        t ++ [Event.procWait, Event.removeDir cmd0.cfgDir]) :=
  ⟨(C4_directory_lifecycle env0).1 "prosody" [] s0 (by simp),
   (C4_directory_lifecycle env0).2.1 cmd0 s0 "wait failed" none,
   (C4_directory_lifecycle env0).2.2 cmd0 s0 none none (by decide)⟩

/-! ## C1 -/

/-- The writers invoked along a trace, in order. -/
def invoked (tr : List Event) : List WriterSpec :=
  tr.filterMap fun e =>
    match e with
    | .invokeWriter w => some w
    | _ => none

/-- Whether an event is a directory creation. -/
def isMkdir : Event → Bool
  | .mkdirAll _ => true
  | _ => false

/-- A symbolic `TempFile` registration. -/
def toReg (r : String × Nat) : Reg := ⟨r.1, .sym r.2⟩

/-- The `cfgF` chain after folding a list of `TempFile` registrations over
an existing chain, exactly as the Go wrapping does. -/
def chainApp : Option (List Reg) → List (String × Nat) → Option (List Reg)
  | c, [] => c
  | c, r :: rs => chainApp (some (c.getD [] ++ [toReg r])) rs

lemma chainApp_some (acc : List Reg) (rs : List (String × Nat)) :
    chainApp (some acc) rs = some (acc ++ rs.map toReg) := by
  induction rs generalizing acc with
  | nil => simp [chainApp]
  | cons r rest ih => simp [chainApp, ih]

lemma invoked_append (t1 t2 : List Event) :
    invoked (t1 ++ t2) = invoked t1 ++ invoked t2 := by
  simp [invoked]

lemma invoked_nil_of_mkdirs (t : List Event)
    (h : ∀ e ∈ t, ∃ d, e = Event.mkdirAll d) : invoked t = [] := by
  induction t with
  | nil => rfl
  | cons e rest ih =>
    obtain ⟨d, hd⟩ := h e (by simp)
    subst hd
    simpa [invoked] using ih fun e he => h e (by simp [he])

/-- `TempFile` in equation form. -/
lemma TempFile_eq (nm : String) (w : WriterSpec) (env : Env) (cmd : Cmd)
    (s : Sys) :
    TempFile nm w env cmd s =
      ({ cmd with cfgF := some (cmd.cfgF.getD [] ++ [⟨nm, w⟩]) },
       if filepathDir nm ≠ "" && filepathDir nm ≠ "." && filepathDir nm ≠ "/"
           && filepathDir nm ≠ ".." then
         s.addEvent (.mkdirAll (filepathJoin cmd.cfgDir (filepathDir nm)))
       else s,
       none) := rfl

/-- Applying a list of symbolic `TempFile` options only appends `mkdirAll`
events and folds the registrations onto the `cfgF` chain. -/
lemma applyOpts_tempFiles (env : Env) (rs : List (String × Nat)) :
    ∀ (cmd : Cmd) (s : Sys),
    ∃ t, applyOpts env (rs.map fun r => TempFile r.1 (.sym r.2)) cmd s =
        ({ cmd with cfgF := chainApp cmd.cfgF rs },
         { s with trace := s.trace ++ t }, none) ∧
      ∀ e ∈ t, ∃ d, e = Event.mkdirAll d := by
  induction rs with
  | nil =>
    intro cmd s
    exact ⟨[], by simp [applyOpts, chainApp], by simp⟩
  | cons r rest ih =>
    intro cmd s
    by_cases hdir : filepathDir r.1 ≠ "" && filepathDir r.1 ≠ "."
        && filepathDir r.1 ≠ "/" && filepathDir r.1 ≠ ".." 
    · obtain ⟨t, ht, htEv⟩ := ih
        { cmd with cfgF := some (cmd.cfgF.getD [] ++ [toReg r]) }
        (s.addEvent (.mkdirAll (filepathJoin cmd.cfgDir (filepathDir r.1))))
      refine ⟨.mkdirAll (filepathJoin cmd.cfgDir (filepathDir r.1)) :: t, ?_, ?_⟩
      · simp only [List.map_cons, applyOpts, TempFile_eq]
        rw [if_pos hdir]
        simp only [Sys.addEvent, toReg] at ht ⊢
        rw [ht]
        simp [chainApp, toReg]
      · intro e he
        rcases List.mem_cons.1 he with rfl | he
        · exact ⟨_, rfl⟩
        · exact htEv e he
    · obtain ⟨t, ht, htEv⟩ := ih
        { cmd with cfgF := some (cmd.cfgF.getD [] ++ [toReg r]) } s
      refine ⟨t, ?_, htEv⟩
      simp only [List.map_cons, applyOpts, TempFile_eq]
      rw [if_neg hdir]
      simp only [toReg] at ht ⊢
      rw [ht]
      simp [chainApp, toReg]

/-- `runNewF` on a symbolic registration: the command is unchanged, the
create/invoke/close events are appended, and the writer oracle decides the
result. -/
lemma runNewF_sym (env : Env) (nm : String) (wid : Nat) (cmd : Cmd) (s : Sys) :
    runNewF env ⟨nm, .sym wid⟩ cmd s =
      (cmd,
       ((((s.addEvent (.createFile (filepathJoin cmd.cfgDir nm))).writeFile
           (filepathJoin cmd.cfgDir nm) .empty).addEvent
          (.invokeWriter (.sym wid))).addEvent
         (.closeFile (filepathJoin cmd.cfgDir nm))),
       env.wres wid) := by
  simp [runNewF_eq, runWriter]

/-- Running a chain of symbolic registrations whose writers all succeed
invokes them exactly once each, in order. -/
lemma runChain_sym_ok (env : Env) (rs : List (String × Nat))
    (hok : ∀ r ∈ rs, env.wres r.2 = none) :
    ∀ (cmd : Cmd) (s : Sys),
    ∃ s2 t, runChain env (rs.map toReg) cmd s = (cmd, s2, none) ∧
      s2.trace = s.trace ++ t ∧
      invoked t = rs.map (fun r => WriterSpec.sym r.2) ∧
      ∀ e ∈ t, isMkdir e = false := by
  induction rs with
  | nil =>
    intro cmd s
    exact ⟨s, [], by simp [runChain], by simp, by simp [invoked], by simp⟩
  | cons r rest ih =>
    intro cmd s
    have hr : env.wres r.2 = none := hok r (by simp)
    obtain ⟨s2, t, hch, htr, hinv, hmk⟩ :=
      ih (fun u hu => hok u (by simp [hu])) cmd
        (((((s.addEvent (.createFile (filepathJoin cmd.cfgDir r.1))).writeFile
            (filepathJoin cmd.cfgDir r.1) .empty).addEvent
           (.invokeWriter (.sym r.2))).addEvent
          (.closeFile (filepathJoin cmd.cfgDir r.1))))
    refine ⟨s2, [.createFile (filepathJoin cmd.cfgDir r.1),
      .invokeWriter (.sym r.2),
      .closeFile (filepathJoin cmd.cfgDir r.1)] ++ t, ?_, ?_, ?_, ?_⟩
    · simp only [List.map_cons, runChain, toReg, runNewF_sym, hr]
      exact hch
    · simp only [Sys.addEvent, Sys.writeFile] at htr
      simp [htr]
    · rw [invoked_append, hinv]
      rfl
    · intro e he
      rcases List.mem_append.1 he with he | he
      · simp only [List.mem_cons, List.mem_singleton,
          List.not_mem_nil, or_false] at he
        rcases he with rfl | rfl | rfl <;> rfl
      · exact hmk e he

/-- Running a chain of symbolic registrations with a first failing writer at
position `pre.length` invokes the successful prefix and the failing writer
exactly once each and stops: later writers never run. -/
lemma runChain_sym_fail (env : Env) (pre : List (String × Nat))
    (r : String × Nat) (post : List (String × Nat)) (e : Err)
    (hok : ∀ u ∈ pre, env.wres u.2 = none) (hr : env.wres r.2 = some e) :
    ∀ (cmd : Cmd) (s : Sys),
    ∃ s2 t, runChain env ((pre ++ r :: post).map toReg) cmd s =
        (cmd, s2, some e) ∧
      s2.trace = s.trace ++ t ∧
      invoked t = pre.map (fun u => WriterSpec.sym u.2) ++ [WriterSpec.sym r.2] ∧
      ∀ ev ∈ t, isMkdir ev = false := by
  induction pre with
  | nil =>
    intro cmd s
    refine ⟨((((s.addEvent (.createFile (filepathJoin cmd.cfgDir r.1))).writeFile
        (filepathJoin cmd.cfgDir r.1) .empty).addEvent
       (.invokeWriter (.sym r.2))).addEvent
      (.closeFile (filepathJoin cmd.cfgDir r.1))),
      [.createFile (filepathJoin cmd.cfgDir r.1),
      .invokeWriter (.sym r.2),
      .closeFile (filepathJoin cmd.cfgDir r.1)], ?_, ?_, ?_, ?_⟩
    · simp only [List.nil_append, List.map_cons, runChain, toReg,
        runNewF_sym, hr]
    · simp [Sys.addEvent, Sys.writeFile]
    · rfl
    · intro ev he
      simp only [List.mem_cons, List.mem_singleton,
        List.not_mem_nil, or_false] at he
      rcases he with rfl | rfl | rfl <;> rfl
  | cons u pre ih =>
    intro cmd s
    have hu : env.wres u.2 = none := hok u (by simp)
    obtain ⟨s2, t, hch, htr, hinv, hmk⟩ :=
      ih (fun v hv => hok v (by simp [hv])) cmd
        (((((s.addEvent (.createFile (filepathJoin cmd.cfgDir u.1))).writeFile
            (filepathJoin cmd.cfgDir u.1) .empty).addEvent
           (.invokeWriter (.sym u.2))).addEvent
          (.closeFile (filepathJoin cmd.cfgDir u.1))))
    refine ⟨s2, [.createFile (filepathJoin cmd.cfgDir u.1),
      .invokeWriter (.sym u.2),
      .closeFile (filepathJoin cmd.cfgDir u.1)] ++ t, ?_, ?_, ?_, ?_⟩
    · simp only [List.cons_append, List.map_cons, runChain, toReg,
        runNewF_sym, hu]
      exact hch
    · simp only [Sys.addEvent, Sys.writeFile] at htr
      simp [htr]
    · rw [invoked_append, hinv]
      rfl
    · intro ev he
      rcases List.mem_append.1 he with he | he
      · simp only [List.mem_cons, List.mem_singleton,
          List.not_mem_nil, or_false] at he
        rcases he with rfl | rfl | rfl <;> rfl
      · exact hmk ev he

/-- Whatever the writer oracles say, running a chain of symbolic
registrations never creates directories and leaves the command unchanged. -/
lemma runChain_sym_any (env : Env) (rs : List (String × Nat)) :
    ∀ (cmd : Cmd) (s : Sys),
    ∃ s2 res t, runChain env (rs.map toReg) cmd s = (cmd, s2, res) ∧
      s2.trace = s.trace ++ t ∧ ∀ ev ∈ t, isMkdir ev = false := by
  induction rs with
  | nil =>
    intro cmd s
    exact ⟨s, none, [], by simp [runChain], by simp, by simp⟩
  | cons r rest ih =>
    intro cmd s
    cases hr : env.wres r.2 with
    | some e =>
      refine ⟨((((s.addEvent (.createFile (filepathJoin cmd.cfgDir r.1))).writeFile
          (filepathJoin cmd.cfgDir r.1) .empty).addEvent
         (.invokeWriter (.sym r.2))).addEvent
        (.closeFile (filepathJoin cmd.cfgDir r.1))),
        some e, [.createFile (filepathJoin cmd.cfgDir r.1),
        .invokeWriter (.sym r.2),
        .closeFile (filepathJoin cmd.cfgDir r.1)], ?_, ?_, ?_⟩
      · simp only [List.map_cons, runChain, toReg, runNewF_sym, hr]
      · simp [Sys.addEvent, Sys.writeFile]
      · intro ev he
        simp only [List.mem_cons, List.mem_singleton,
          List.not_mem_nil, or_false] at he
        rcases he with rfl | rfl | rfl <;> rfl
    | none =>
      obtain ⟨s2, res, t, hch, htr, hmk⟩ := ih cmd
        (((((s.addEvent (.createFile (filepathJoin cmd.cfgDir r.1))).writeFile
            (filepathJoin cmd.cfgDir r.1) .empty).addEvent
           (.invokeWriter (.sym r.2))).addEvent
          (.closeFile (filepathJoin cmd.cfgDir r.1))))
      refine ⟨s2, res, [.createFile (filepathJoin cmd.cfgDir r.1),
        .invokeWriter (.sym r.2),
        .closeFile (filepathJoin cmd.cfgDir r.1)] ++ t, ?_, ?_, ?_⟩
      · simp only [List.map_cons, runChain, toReg, runNewF_sym, hr]
        exact hch
      · simp only [Sys.addEvent, Sys.writeFile] at htr
        simp [htr]
      · intro ev he
        rcases List.mem_append.1 he with he | he
        · simp only [List.mem_cons, List.mem_singleton,
            List.not_mem_nil, or_false] at he
          rcases he with rfl | rfl | rfl <;> rfl
        · exact hmk ev he

lemma invoked_td_append (p : String) (t1 t2 : List Event) :
    invoked (Event.tempDirCreate p :: (t1 ++ t2)) = invoked t1 ++ invoked t2 := by
  simp [invoked]

lemma chainApp_none (l : List (String × Nat)) (h : l ≠ []) :
    chainApp (none : Option (List Reg)) l = some (l.map toReg) := by
  cases l with
  | nil => cases h rfl
  | cons a l =>
    show chainApp (some ([] ++ [toReg a])) l = _
    rw [chainApp_some]
    simp

/-- `New` when the option phase fails. -/
lemma New_opts_fail (env : Env) (name : String) (opts : List Opt) (s : Sys)
    (cmd1 : Cmd) (s2 : Sys) (e : Err)
    (ha : applyOpts env opts
        { name := name, cfgDir := "/tmp/" ++ filepathBase name }
        (s.addEvent (.tempDirCreate ("/tmp/" ++ filepathBase name))) =
      (cmd1, s2, some e)) :
    New env name opts s = (s2, .error e) := by
  simp only [New]
  rw [ha]

/-- `New` when the option phase succeeds and no deferred chain was
registered. -/
lemma New_noChain (env : Env) (name : String) (opts : List Opt) (s : Sys)
    (cmd1 : Cmd) (s2 : Sys)
    (ha : applyOpts env opts
        { name := name, cfgDir := "/tmp/" ++ filepathBase name }
        (s.addEvent (.tempDirCreate ("/tmp/" ++ filepathBase name))) =
      (cmd1, s2, none))
    (hcf : cmd1.cfgF = none) :
    New env name opts s = (s2, .ok cmd1) := by
  simp only [New]
  rw [ha]
  simp only [hcf]

/-- `New` when the option phase succeeds and the deferred chain runs to
completion. -/
lemma New_chain_ok (env : Env) (name : String) (opts : List Opt) (s : Sys)
    (cmd1 cmd2 : Cmd) (s2 s3 : Sys) (regs : List Reg)
    (ha : applyOpts env opts
        { name := name, cfgDir := "/tmp/" ++ filepathBase name }
        (s.addEvent (.tempDirCreate ("/tmp/" ++ filepathBase name))) =
      (cmd1, s2, none))
    (hcf : cmd1.cfgF = some regs)
    (hc : runChain env regs cmd1 s2 = (cmd2, s3, none)) :
    New env name opts s = (s3, .ok cmd2) := by
  simp only [New]
  rw [ha]
  simp only [hcf]
  rw [hc]

/-- `New` when the deferred chain fails. -/
lemma New_chain_fail (env : Env) (name : String) (opts : List Opt) (s : Sys)
    (cmd1 cmd2 : Cmd) (s2 s3 : Sys) (regs : List Reg) (e : Err)
    (ha : applyOpts env opts
        { name := name, cfgDir := "/tmp/" ++ filepathBase name }
        (s.addEvent (.tempDirCreate ("/tmp/" ++ filepathBase name))) =
      (cmd1, s2, none))
    (hcf : cmd1.cfgF = some regs)
    (hc : runChain env regs cmd1 s2 = (cmd2, s3, some e)) :
    New env name opts s = (s3, .error ("error running config func: " ++ e)) := by
  simp only [New]
  rw [ha]
  simp only [hcf]
  rw [hc]

/-- C1: for any sequence of deferred file-writer registrations, the
materialization step runs after all options (the trace splits into an
option phase that invokes no writer and a materialization phase that
creates no directory); when all writers succeed it invokes them exactly
once each in registration order and `New` returns a command; when writer
`k` fails, writers `1..k` are the only ones invoked, writer `k+1..N` never
run, and `New` surfaces the wrapped error with no command. -/
theorem C1_deferred_ordering (env : Env) (name : String)
    (regs : List (String × Nat)) (s : Sys) :
    ((∀ r ∈ regs, env.wres r.2 = none) →
      (∃ cmd, (New env name (regs.map fun r => TempFile r.1 (.sym r.2)) s).2 =
        .ok cmd) ∧
      invoked ((New env name (regs.map fun r => TempFile r.1 (.sym r.2))
          s).1.trace.drop s.trace.length) =
        regs.map fun r => WriterSpec.sym r.2) ∧
    (∀ pre r post e, regs = pre ++ r :: post →
      (∀ u ∈ pre, env.wres u.2 = none) → env.wres r.2 = some e →
      (New env name (regs.map fun r => TempFile r.1 (.sym r.2)) s).2 =
        .error ("error running config func: " ++ e) ∧
      invoked ((New env name (regs.map fun r => TempFile r.1 (.sym r.2))
          s).1.trace.drop s.trace.length) =
        pre.map (fun u => WriterSpec.sym u.2) ++ [WriterSpec.sym r.2]) ∧
    (∃ tOpt tMat,
      (New env name (regs.map fun r => TempFile r.1 (.sym r.2))
          s).1.trace.drop s.trace.length = tOpt ++ tMat ∧
      invoked tOpt = [] ∧ ∀ ev ∈ tMat, isMkdir ev = false) := by
  refine ⟨?_, ?_, ?_⟩
  · intro hok
    obtain ⟨tO, haO, haEv⟩ := applyOpts_tempFiles env regs
      { name := name, cfgDir := "/tmp/" ++ filepathBase name }
      (s.addEvent (.tempDirCreate ("/tmp/" ++ filepathBase name)))
    cases hregs : regs with
    | nil =>
      subst hregs
      have hNew := New_noChain env name [] s
        { name := name, cfgDir := "/tmp/" ++ filepathBase name }
        (s.addEvent (.tempDirCreate ("/tmp/" ++ filepathBase name)))
        rfl rfl
      simp only [List.map_nil]
      rw [hNew]
      refine ⟨⟨_, rfl⟩, ?_⟩
      simp [Sys.addEvent, List.drop_left, invoked]
    | cons r0 rest =>
      subst hregs
      have hchain := chainApp_none (r0 :: rest) (by simp)
      obtain ⟨s3, tM, hc, htr3, hinv3, hmk3⟩ :=
        runChain_sym_ok env (r0 :: rest) hok
          { name := name, cfgDir := "/tmp/" ++ filepathBase name,
            cfgF := chainApp (none : Option (List Reg)) (r0 :: rest) }
          { (s.addEvent (.tempDirCreate ("/tmp/" ++ filepathBase name))) with
            trace := (s.addEvent
              (.tempDirCreate ("/tmp/" ++ filepathBase name))).trace ++ tO }
      have hNew := New_chain_ok env name
        ((r0 :: rest).map fun r => TempFile r.1 (.sym r.2)) s
        { name := name, cfgDir := "/tmp/" ++ filepathBase name,
          cfgF := chainApp (none : Option (List Reg)) (r0 :: rest) }
        { name := name, cfgDir := "/tmp/" ++ filepathBase name,
          cfgF := chainApp (none : Option (List Reg)) (r0 :: rest) }
        { (s.addEvent (.tempDirCreate ("/tmp/" ++ filepathBase name))) with
          trace := (s.addEvent
            (.tempDirCreate ("/tmp/" ++ filepathBase name))).trace ++ tO }
        s3 ((r0 :: rest).map toReg) haO hchain hc
      rw [hNew]
      refine ⟨⟨_, rfl⟩, ?_⟩
      have hs3 : s3.trace = s.trace ++
          (Event.tempDirCreate ("/tmp/" ++ filepathBase name) ::
            (tO ++ tM)) := by
        rw [htr3]
        simp [Sys.addEvent]
      rw [hs3, List.drop_left, invoked_td_append,
        invoked_nil_of_mkdirs tO haEv, hinv3]
      simp
  · intro pre r post e hsplit hok hr
    subst hsplit
    obtain ⟨tO, haO, haEv⟩ := applyOpts_tempFiles env (pre ++ r :: post)
      { name := name, cfgDir := "/tmp/" ++ filepathBase name }
      (s.addEvent (.tempDirCreate ("/tmp/" ++ filepathBase name)))
    have hchain := chainApp_none (pre ++ r :: post) (by simp)
    obtain ⟨s3, tM, hc, htr3, hinv3, hmk3⟩ :=
      runChain_sym_fail env pre r post e hok hr
        { name := name, cfgDir := "/tmp/" ++ filepathBase name,
          cfgF := chainApp (none : Option (List Reg)) (pre ++ r :: post) }
        { (s.addEvent (.tempDirCreate ("/tmp/" ++ filepathBase name))) with
          trace := (s.addEvent
            (.tempDirCreate ("/tmp/" ++ filepathBase name))).trace ++ tO }
    have hNew := New_chain_fail env name
      ((pre ++ r :: post).map fun u => TempFile u.1 (.sym u.2)) s
      { name := name, cfgDir := "/tmp/" ++ filepathBase name,
        cfgF := chainApp (none : Option (List Reg)) (pre ++ r :: post) }
      { name := name, cfgDir := "/tmp/" ++ filepathBase name,
        cfgF := chainApp (none : Option (List Reg)) (pre ++ r :: post) }
      { (s.addEvent (.tempDirCreate ("/tmp/" ++ filepathBase name))) with
        trace := (s.addEvent
          (.tempDirCreate ("/tmp/" ++ filepathBase name))).trace ++ tO }
      s3 ((pre ++ r :: post).map toReg) e haO hchain hc
    rw [hNew]
    refine ⟨rfl, ?_⟩
    have hs3 : s3.trace = s.trace ++
        (Event.tempDirCreate ("/tmp/" ++ filepathBase name) ::
          (tO ++ tM)) := by
      rw [htr3]
      simp [Sys.addEvent]
    rw [hs3, List.drop_left, invoked_td_append,
      invoked_nil_of_mkdirs tO haEv, hinv3]
    simp
  · obtain ⟨tO, haO, haEv⟩ := applyOpts_tempFiles env regs
      { name := name, cfgDir := "/tmp/" ++ filepathBase name }
      (s.addEvent (.tempDirCreate ("/tmp/" ++ filepathBase name)))
    cases hregs : regs with
    | nil =>
      subst hregs
      have hNew := New_noChain env name [] s
        { name := name, cfgDir := "/tmp/" ++ filepathBase name }
        (s.addEvent (.tempDirCreate ("/tmp/" ++ filepathBase name)))
        rfl rfl
      simp only [List.map_nil]
      rw [hNew]
      refine ⟨[.tempDirCreate ("/tmp/" ++ filepathBase name)], [], ?_, ?_, ?_⟩
      · simp [Sys.addEvent, List.drop_left]
      · simp [invoked]
      · simp
    | cons r0 rest =>
      subst hregs
      have hchain := chainApp_none (r0 :: rest) (by simp)
      obtain ⟨s3, res, tM, hc, htr3, hmk3⟩ :=
        runChain_sym_any env (r0 :: rest)
          { name := name, cfgDir := "/tmp/" ++ filepathBase name,
            cfgF := chainApp (none : Option (List Reg)) (r0 :: rest) }
          { (s.addEvent (.tempDirCreate ("/tmp/" ++ filepathBase name))) with
            trace := (s.addEvent
              (.tempDirCreate ("/tmp/" ++ filepathBase name))).trace ++ tO }
      have hs3 : s3.trace = s.trace ++
          (Event.tempDirCreate ("/tmp/" ++ filepathBase name) ::
            (tO ++ tM)) := by
        rw [htr3]
        simp [Sys.addEvent]
      cases res with
      | none =>
        have hNew := New_chain_ok env name
          ((r0 :: rest).map fun u => TempFile u.1 (.sym u.2)) s
          { name := name, cfgDir := "/tmp/" ++ filepathBase name,
            cfgF := chainApp (none : Option (List Reg)) (r0 :: rest) }
          { name := name, cfgDir := "/tmp/" ++ filepathBase name,
            cfgF := chainApp (none : Option (List Reg)) (r0 :: rest) }
          { (s.addEvent (.tempDirCreate ("/tmp/" ++ filepathBase name))) with
            trace := (s.addEvent
              (.tempDirCreate ("/tmp/" ++ filepathBase name))).trace ++ tO }
          s3 ((r0 :: rest).map toReg) haO hchain hc
        rw [hNew]
        refine ⟨.tempDirCreate ("/tmp/" ++ filepathBase name) :: tO, tM,
          ?_, ?_, hmk3⟩
        · rw [hs3, List.drop_left]
          simp
        · simpa [invoked] using invoked_nil_of_mkdirs tO haEv
      | some e =>
        have hNew := New_chain_fail env name
          ((r0 :: rest).map fun u => TempFile u.1 (.sym u.2)) s
          { name := name, cfgDir := "/tmp/" ++ filepathBase name,
            cfgF := chainApp (none : Option (List Reg)) (r0 :: rest) }
          { name := name, cfgDir := "/tmp/" ++ filepathBase name,
            cfgF := chainApp (none : Option (List Reg)) (r0 :: rest) }
          { (s.addEvent (.tempDirCreate ("/tmp/" ++ filepathBase name))) with
            trace := (s.addEvent
              (.tempDirCreate ("/tmp/" ++ filepathBase name))).trace ++ tO }
          s3 ((r0 :: rest).map toReg) e haO hchain hc
        rw [hNew]
        refine ⟨.tempDirCreate ("/tmp/" ++ filepathBase name) :: tO, tM,
          ?_, ?_, hmk3⟩
        · rw [hs3, List.drop_left]
          simp
        · simpa [invoked] using invoked_nil_of_mkdirs tO haEv

/-- An environment in which only writer 1 fails. -/
def envW : Env := { env0 with wres := fun wid => if wid = 1 then some "boom" else none }

/-- Witness for C1: three registrations with the second writer failing — 
writers 0 and 1 run, writer 2 never does, and `New` returns the wrapped
error. -/
theorem C1_witness :
    (New envW "prosody" ([("a.cfg", 0), ("b.cfg", 1), ("c.cfg", 2)].map
        fun r => TempFile r.1 (.sym r.2)) s0).2 =
      .error ("error running config func: " ++ "boom") ∧
    invoked ((New envW "prosody" ([("a.cfg", 0), ("b.cfg", 1), ("c.cfg", 2)].map
        fun r => TempFile r.1 (.sym r.2)) s0).1.trace.drop s0.trace.length) =
      [("a.cfg", 0)].map (fun u => WriterSpec.sym u.2) ++ [WriterSpec.sym 1] :=
  (C1_deferred_ordering envW "prosody" [("a.cfg", 0), ("b.cfg", 1), ("c.cfg", 2)]
    s0).2.1 [("a.cfg", 0)] ("b.cfg", 1) [("c.cfg", 2)] "boom" rfl
    (by decide) rfl

/-! ## C8 -/

/-- A command used as a concrete fixture for the `TempFile` claims. -/
def cmdP : Cmd := { name := "prog", cfgDir := "/tmp/prog" }

/-- Counterexample for C8: applying the `TempFile` option for the relative
path `"sub/cfg.lua"` already emits the directory-creation event while the
deferred chain is still pending (the registration sits unexecuted in `cfgF`
and no file has been created and no writer invoked) — so the intermediate
directories are created at registration time, not at materialization time
as the claim states. -/
theorem C8_counterexample :
    (TempFile "sub/cfg.lua" (.sym 0) env0 cmdP s0).2.1.trace =
      [.mkdirAll "/tmp/prog/sub"] ∧
    (TempFile "sub/cfg.lua" (.sym 0) env0 cmdP s0).1.cfgF =
      some [⟨"sub/cfg.lua", .sym 0⟩] ∧
    (TempFile "sub/cfg.lua" (.sym 0) env0 cmdP s0).2.2 = none := by
  refine ⟨?_, ?_, ?_⟩ <;> rfl

/-- C8 (amended): for a registration whose relative path has intermediate
directories, those directories are created at registration time — when the
`TempFile` option itself runs, before materialization; at materialization
the file is created, the writer is invoked with the `Cmd` and the open
handle, and the file is closed on every exit path (the close event is
appended whether the writer's oracle verdict is success or failure). -/
theorem C8_amended_dirs_at_registration (env : Env) (nm : String)
    (w : WriterSpec) (cmd : Cmd) (s : Sys) (wid : Nat)
    (hdir : (filepathDir nm ≠ "" && filepathDir nm ≠ "." &&
      filepathDir nm ≠ "/" && filepathDir nm ≠ "..") = true) :
    TempFile nm w env cmd s =
      ({ cmd with cfgF := some (cmd.cfgF.getD [] ++ [⟨nm, w⟩]) },
       s.addEvent (.mkdirAll (filepathJoin cmd.cfgDir (filepathDir nm))),
       none) ∧
    runNewF env ⟨nm, .sym wid⟩ cmd s =
      (cmd,
       ((((s.addEvent (.createFile (filepathJoin cmd.cfgDir nm))).writeFile
           (filepathJoin cmd.cfgDir nm) .empty).addEvent
          (.invokeWriter (.sym wid))).addEvent
         (.closeFile (filepathJoin cmd.cfgDir nm))),
       env.wres wid) := by
  constructor
  · rw [TempFile_eq, if_pos hdir]
  · exact runNewF_sym env nm wid cmd s

/-- Witness for C8 (amended) at the concrete path `"sub/cfg.lua"`. -/
theorem C8_witness :
    (TempFile "sub/cfg.lua" (.sym 3) env0 cmdP s0 =
      ({ cmdP with cfgF := some (cmdP.cfgF.getD [] ++ [⟨"sub/cfg.lua", .sym 3⟩]) },
       s0.addEvent (.mkdirAll (filepathJoin cmdP.cfgDir
         (filepathDir "sub/cfg.lua"))), none)) ∧
    runNewF env0 ⟨"sub/cfg.lua", .sym 3⟩ cmdP s0 =
      (cmdP,
       ((((s0.addEvent (.createFile (filepathJoin cmdP.cfgDir
             "sub/cfg.lua"))).writeFile
           (filepathJoin cmdP.cfgDir "sub/cfg.lua") .empty).addEvent
          (.invokeWriter (.sym 3))).addEvent
         (.closeFile (filepathJoin cmdP.cfgDir "sub/cfg.lua"))),
       env0.wres 3) :=
  C8_amended_dirs_at_registration env0 "sub/cfg.lua" (.sym 3) cmdP s0 3
    (by decide)

/-! ## C7 -/

/-- C7: issuing the credential named "localhost" produces the key file
`localhost.key` (PEM key) and the certificate file `localhost.crt` whose
subject (DNS) name is "localhost", with a validity window starting
at-or-before issuance time `now` and ending 365 days later; construction
succeeds; and when the credential is issued for client authentication
(`ClientCert`), the certificate and the private key are additionally
retained on the command and returned by the client-identity accessor. -/
theorem C7_certificate_issuance (env : Env) (now : Nat) (s : Sys) :
    ((New env "prog" [Cert "localhost" now] s).1.files.lookup
        "/tmp/prog/localhost.key" = some (.pemKey s.nextKey) ∧
      (∃ c : CertData,
        (New env "prog" [Cert "localhost" now] s).1.files.lookup
          "/tmp/prog/localhost.crt" = some (.pemCert c) ∧
        c.tpl.dnsNames = ["localhost"] ∧ c.tpl.notBefore ≤ now ∧
        c.tpl.notAfter = c.tpl.notBefore + 365 * 24 * 3600) ∧
      ∃ cmd, (New env "prog" [Cert "localhost" now] s).2 = .ok cmd) ∧
    (∃ cmd c,
      (New env "prog" [ClientCert "localhost" now] s).2 = .ok cmd ∧
      (New env "prog" [ClientCert "localhost" now] s).1.files.lookup
        "/tmp/prog/localhost.key" = some (.pemKey s.nextKey) ∧
      (New env "prog" [ClientCert "localhost" now] s).1.files.lookup
        "/tmp/prog/localhost.crt" = some (.pemCert c) ∧
      c.tpl.dnsNames = ["localhost"] ∧ c.tpl.notBefore ≤ now ∧
      c.tpl.notAfter = c.tpl.notBefore + 365 * 24 * 3600 ∧
      cmd.clientCrt = some c ∧ cmd.clientCrtKey = some s.nextKey ∧
      cmd.clientCertMethod = (([some c], some s.nextKey), none)) := by
  refine ⟨⟨?_, ⟨⟨⟨1, now, now + 365 * 24 * 3600, ["localhost"], []⟩,
      s.nextKey⟩, ?_, rfl, le_refl now, rfl⟩, ⟨_, rfl⟩⟩,
    ⟨_, ⟨⟨1, now, now + 365 * 24 * 3600, ["localhost"], [.clientAuth]⟩,
      s.nextKey⟩, rfl, ?_, ?_, rfl, le_refl now, rfl, rfl, rfl, rfl⟩⟩
  · rfl
  · rfl
  · rfl
  · rfl

/-! ## C9 -/

lemma digitChar_fin_inj : ∀ a b : Fin 10,
    Nat.digitChar a.val = Nat.digitChar b.val → a = b := by decide

lemma digitChar_inj10 (a b : Nat) (ha : a < 10) (hb : b < 10)
    (h : Nat.digitChar a = Nat.digitChar b) : a = b :=
  congrArg Fin.val (digitChar_fin_inj ⟨a, ha⟩ ⟨b, hb⟩ h)

lemma map_digitChar_inj : ∀ (l1 l2 : List Nat), (∀ d ∈ l1, d < 10) →
    (∀ d ∈ l2, d < 10) → l1.map Nat.digitChar = l2.map Nat.digitChar →
    l1 = l2
  | [], [], _, _, _ => rfl
  | [], _ :: _, _, _, h => by simp at h
  | _ :: _, [], _, _, h => by simp at h
  | a :: l1, b :: l2, h1, h2, h => by
    simp only [List.map_cons, List.cons.injEq] at h
    have hab := digitChar_inj10 a b (h1 a (by simp)) (h2 b (by simp)) h.1
    subst hab
    rw [map_digitChar_inj l1 l2 (fun d hd => h1 d (by simp [hd]))
      (fun d hd => h2 d (by simp [hd])) h.2]

lemma decRepr_inj : Function.Injective decRepr := by
  intro a b h
  unfold decRepr at h
  by_cases ha : a = 0 <;> by_cases hb : b = 0
  · omega
  · exfalso
    rw [if_pos ha, if_neg hb] at h
    have hdat : ['0'] = (Nat.digits 10 b).reverse.map Nat.digitChar :=
      congrArg String.data h
    cases hrev : (Nat.digits 10 b).reverse with
    | nil => rw [hrev] at hdat; simp at hdat
    | cons d t =>
      rw [hrev] at hdat
      cases t with
      | cons _ _ => simp at hdat
      | nil =>
        simp only [List.map_cons, List.map_nil, List.cons.injEq] at hdat
        have hmem : d ∈ Nat.digits 10 b :=
          List.mem_reverse.1 (by rw [hrev]; simp)
        have hdlt : d < 10 := Nat.digits_lt_base (by norm_num) hmem
        have hd0 : d = 0 :=
          digitChar_inj10 d 0 hdlt (by norm_num) (by rw [← hdat.1]; rfl)
        have hdig : Nat.digits 10 b = [d] := by
          have := congrArg List.reverse hrev
          simpa using this
        have hbd : b = d := by
          conv_lhs => rw [← Nat.ofDigits_digits 10 b]
          rw [hdig]
          simp [Nat.ofDigits]
        exact hb (by omega)
  · exfalso
    rw [if_neg ha, if_pos hb] at h
    have hdat : ['0'] = (Nat.digits 10 a).reverse.map Nat.digitChar :=
      congrArg String.data h.symm
    cases hrev : (Nat.digits 10 a).reverse with
    | nil => rw [hrev] at hdat; simp at hdat
    | cons d t =>
      rw [hrev] at hdat
      cases t with
      | cons _ _ => simp at hdat
      | nil =>
        simp only [List.map_cons, List.map_nil, List.cons.injEq] at hdat
        have hmem : d ∈ Nat.digits 10 a :=
          List.mem_reverse.1 (by rw [hrev]; simp)
        have hdlt : d < 10 := Nat.digits_lt_base (by norm_num) hmem
        have hd0 : d = 0 :=
          digitChar_inj10 d 0 hdlt (by norm_num) (by rw [← hdat.1]; rfl)
        have hdig : Nat.digits 10 a = [d] := by
          have := congrArg List.reverse hrev
          simpa using this
        have had : a = d := by
          conv_lhs => rw [← Nat.ofDigits_digits 10 a]
          rw [hdig]
          simp [Nat.ofDigits]
        exact ha (by omega)
  · rw [if_neg ha, if_neg hb] at h
    have hdat : (Nat.digits 10 a).reverse.map Nat.digitChar =
        (Nat.digits 10 b).reverse.map Nat.digitChar :=
      congrArg String.data h
    have hrev := map_digitChar_inj _ _
      (fun d hd => Nat.digits_lt_base (by norm_num) (List.mem_reverse.1 hd))
      (fun d hd => Nat.digits_lt_base (by norm_num) (List.mem_reverse.1 hd))
      hdat
    have hdig : Nat.digits 10 a = Nat.digits 10 b := by
      have := congrArg List.reverse hrev
      simpa using this
    exact Nat.digits_inj_iff.1 hdig

lemma intRepr_natCast (k : Nat) : intRepr (k : Int) = decRepr k := by
  unfold intRepr
  rw [if_neg (Int.not_lt.mpr (Int.natCast_nonneg k)), Int.toNat_natCast]

lemma invokeN_eq (b : String) (j : Int) (n : Nat) :
    SubtestRunner.invokeN ⟨b, j⟩ n =
      (⟨b, j + n⟩,
       (List.range n).map fun k : Nat => b ++ "/" ++ intRepr (j + 1 + (k : Int))) := by
  induction n generalizing j with
  | zero => simp [SubtestRunner.invokeN]
  | succ n ih =>
    simp only [SubtestRunner.invokeN, SubtestRunner.invoke]
    rw [ih (j + 1)]
    refine Prod.ext ?_ ?_
    · show SubtestRunner.mk b (j + 1 + (n : Int)) =
        SubtestRunner.mk b (j + ((n + 1 : Nat) : Int))
      congr 1
      push_cast
      ring_nf
    · show (b ++ "/" ++ intRepr (j + 1)) ::
        (List.range n).map (fun k : Nat => b ++ "/" ++ intRepr (j + 1 + 1 + (k : Int))) =
        (List.range (n + 1)).map (fun k : Nat => b ++ "/" ++ intRepr (j + 1 + (k : Int)))
      rw [List.range_succ_eq_map]
      simp only [List.map_cons, List.map_map]
      congr 1
      · congr 1
        push_cast
        ring_nf
      · apply List.map_congr_left
        intro k _
        simp only [Function.comp]
        congr 1
        push_cast
        ring_nf

/-- C9: `n` successive invocations of the subtest runner returned by `Test`
for a process named `name` produce the child-test names
`filepath.Base(name) ++ "/0"`, `…/1`, …, `…/(n-1)`, in call order; the
names are pairwise distinct and determined only by the base name and the
invocation count. -/
theorem C9_subtest_naming (name : String) (n : Nat) :
    ((runnerInit name).invokeN n).2 =
      (List.range n).map (fun k => filepathBase name ++ "/" ++ decRepr k) ∧
    ((runnerInit name).invokeN n).2.Nodup := by
  have hnames : ((runnerInit name).invokeN n).2 =
      (List.range n).map (fun k => filepathBase name ++ "/" ++ decRepr k) := by
    rw [show runnerInit name = ⟨filepathBase name, -1⟩ from rfl,
      invokeN_eq (filepathBase name) (-1) n]
    apply List.map_congr_left
    intro k _
    have harg : (-1 : Int) + 1 + (k : Int) = (k : Int) := by ring
    rw [harg, intRepr_natCast]
  refine ⟨hnames, ?_⟩
  rw [hnames]
  refine List.Nodup.map ?_ (List.nodup_range n)
  intro a b hab
  apply decRepr_inj
  have h2 := congrArg String.data hab
  simp only [String.data_append] at h2
  exact String.ext (List.append_cancel_left h2)

/-! ## C5 -/

lemma waitSocket_shape (env : Env) (net : String) (p : Nat) :
    ∀ (budget k : Nat) (s : Sys), ∃ m, m ≤ budget ∧
      (waitSocket env net p budget k s).1 =
        { s with trace := s.trace ++ List.replicate m (.connAttempt net p) } ∧
      ((waitSocket env net p budget k s).2 = none → 1 ≤ m) := by
  intro budget
  induction budget with
  | zero =>
    intro k s
    exact ⟨0, le_refl 0, by simp [waitSocket], by simp [waitSocket]⟩
  | succ b ih =>
    intro k s
    by_cases hok : env.connectOK net p k = true
    · refine ⟨1, by omega, ?_, fun _ => le_refl 1⟩
      simp [waitSocket, hok, Sys.addEvent]
    · obtain ⟨m, hm, hsh, _⟩ := ih (k + 1) (s.addEvent (.connAttempt net p))
      refine ⟨m + 1, by omega, ?_, fun _ => by omega⟩
      rw [show waitSocket env net p (b + 1) k s =
        waitSocket env net p b (k + 1) (s.addEvent (.connAttempt net p)) by
          simp [waitSocket, hok]]
      rw [hsh]
      simp [Sys.addEvent, List.replicate_succ]

lemma waitSocket_never (env : Env) (net : String) (p : Nat)
    (hfail : ∀ k, env.connectOK net p k = false) :
    ∀ (budget k : Nat) (s : Sys),
      (waitSocket env net p budget k s).2 = some "socket did not become live" := by
  intro budget
  induction budget with
  | zero => intro k s; rfl
  | succ b ih =>
    intro k s
    simp [waitSocket, hfail k, ih (k + 1)]

lemma runDeferChain_shape (env : Env) (ds : List Nat) (s : Sys) :
    ∃ t, (runDeferChain env ds s).1 = { s with trace := s.trace ++ t } ∧
      ∀ e ∈ t, ∃ d, e = Event.runDefer d := by
  induction ds generalizing s with
  | nil => exact ⟨[], by simp [runDeferChain], by simp⟩
  | cons d ds ih =>
    cases hd : env.defRes d with
    | some e =>
      exact ⟨[.runDefer d], by simp [runDeferChain, hd, Sys.addEvent],
        by simp⟩
    | none =>
      obtain ⟨t, ht, htEv⟩ := ih (s.addEvent (.runDefer d))
      simp only [Sys.addEvent] at ht
      refine ⟨.runDefer d :: t, ?_, ?_⟩
      · simp [runDeferChain, hd, Sys.addEvent, ht]
      · intro e he
        rcases List.mem_cons.1 he with rfl | he
        · exact ⟨d, rfl⟩
        · exact htEv e he

/-- A world in which no connection attempt ever succeeds. -/
def envNoConn : Env := { env0 with connectOK := fun _ _ _ => false }

/-- A command whose only socket reservation is the component one, with one
registered post-start action. -/
def cmdComp : Cmd :=
  { name := "prosody", cfgDir := "/tmp/prosody",
    compListener := some ⟨0, "tcp", "[::1]:0", 5347⟩,
    compNetwork := "tcp", deferF := some [0] }

/-- Counterexample for C5: with only a component reservation and a world in
which no connection can ever be made, `Test`'s startup sequence succeeds
anyway and runs the deferred post-start chain after zero connection
attempts — the component reservation is never polled, so the claim that
every reservation (including a component one) is polled before the deferred
chain runs is false. -/
theorem C5_counterexample :
    (testStartup envNoConn none 3 cmdComp s0).2 = none ∧
    (testStartup envNoConn none 3 cmdComp s0).1.trace =
      [.procStart, .runDefer 0] :=
  ⟨rfl, rfl⟩

lemma sockStep_shape (env : Env) (budget : Nat) (ol : Option Listener)
    (net : String) (s : Sys) :
    ∃ tp res,
      sockWait env budget ol net s = ({ s with trace := s.trace ++ tp }, res) ∧
      (∀ e ∈ tp, ∃ l, ol = some l ∧ e = Event.connAttempt net l.port) ∧
      tp.length ≤ budget ∧
      (∀ l, ol = some l → res = none → Event.connAttempt net l.port ∈ tp) ∧
      (∀ l, ol = some l → (∀ k, env.connectOK net l.port k = false) →
        res ≠ none) ∧
      (ol = none → tp = []) := by
  cases ol with
  | none =>
    refine ⟨[], none, by simp [sockWait], by simp, by simp, ?_, ?_,
      fun _ => rfl⟩
    · intro l h
      cases h
    · intro l h
      cases h
  | some l =>
    obtain ⟨m, hm, hsh, hpos⟩ := waitSocket_shape env net l.port budget 0 s
    refine ⟨List.replicate m (.connAttempt net l.port),
      (waitSocket env net l.port budget 0 s).2, ?_, ?_, ?_, ?_, ?_, ?_⟩
    · show waitSocket env net l.port budget 0 s = _
      exact Prod.ext hsh rfl
    · intro e he
      exact ⟨l, rfl, List.eq_of_mem_replicate he⟩
    · simpa using hm
    · intro l2 hl2 hres
      cases hl2
      exact List.mem_replicate.2 ⟨by have := hpos hres; omega, rfl⟩
    · intro l2 hl2 hfail
      cases hl2
      rw [waitSocket_never env net l.port hfail budget 0 s]
      simp
    · intro h
      cases h

lemma deferStep_shape (env : Env) (df : Option (List Nat)) (s : Sys) :
    ∃ td res,
      runDeferF env df s = ({ s with trace := s.trace ++ td }, res) ∧
      ∀ e ∈ td, ∃ d, e = Event.runDefer d := by
  cases df with
  | none => exact ⟨[], none, by simp [runDeferF], by simp⟩
  | some ds =>
    obtain ⟨t, ht, htEv⟩ := runDeferChain_shape env ds s
    refine ⟨t, (runDeferChain env ds s).2, ?_, htEv⟩
    show runDeferChain env ds s = _
    exact Prod.ext ht rfl

/-- C5 (amended): after starting the process, `Test` polls connectability of
the c2s and the s2s reservations only — every connection attempt targets the
recorded c2s or s2s listener, with at most `budget` attempts per reserved
socket, and exhaustion of either poll is fatal (no runner, no deferred
actions) — and the deferred post-start chain runs only after those polls; a
command whose only reservation is the component one is not polled at all. -/
theorem C5_amended_socket_polling (env : Env) (budget : Nat) (cmd : Cmd)
    (s : Sys) :
    ∃ tp td,
      (testStartup env none budget cmd s).1.trace =
        s.trace ++ .procStart :: (tp ++ td) ∧
      (∀ e ∈ tp,
        (∃ l, cmd.c2sListener = some l ∧
          e = Event.connAttempt cmd.c2sNetwork l.port) ∨
        (∃ l, cmd.s2sListener = some l ∧
          e = Event.connAttempt cmd.s2sNetwork l.port)) ∧
      (∀ e ∈ td, ∃ d, e = Event.runDefer d) ∧
      tp.length ≤ 2 * budget ∧
      (∀ l, (testStartup env none budget cmd s).2 = none →
        cmd.c2sListener = some l →
        Event.connAttempt cmd.c2sNetwork l.port ∈ tp) ∧
      (∀ l, (testStartup env none budget cmd s).2 = none →
        cmd.s2sListener = some l →
        Event.connAttempt cmd.s2sNetwork l.port ∈ tp) ∧
      (∀ l, cmd.c2sListener = some l →
        (∀ k, env.connectOK cmd.c2sNetwork l.port k = false) →
        (testStartup env none budget cmd s).2 ≠ none ∧ td = []) ∧
      (∀ l, cmd.s2sListener = some l →
        (∀ k, env.connectOK cmd.s2sNetwork l.port k = false) →
        (testStartup env none budget cmd s).2 ≠ none ∧ td = []) ∧
      (cmd.c2sListener = none → cmd.s2sListener = none → tp = []) := by
  obtain ⟨tp1, res1, h1, h1conn, h1len, h1mem, h1ex, h1none⟩ :=
    sockStep_shape env budget cmd.c2sListener cmd.c2sNetwork
      (s.addEvent .procStart)
  simp only [testStartup]
  rw [h1]
  cases res1 with
  | some e =>
    refine ⟨tp1, [], ?_, fun e2 he2 => ?_, by simp, by omega, ?_, ?_,
      ?_, ?_, ?_⟩
    · simp [Sys.addEvent]
    · exact Or.inl (h1conn e2 he2)
    · intro l hres
      simp at hres
    · intro l hres
      simp at hres
    · intro l hl hf
      exact ⟨by simp, rfl⟩
    · intro l hl hf
      exact ⟨by simp, rfl⟩
    · intro hc _
      exact h1none hc
  | none =>
    obtain ⟨tp2, res2, h2, h2conn, h2len, h2mem, h2ex, h2none⟩ :=
      sockStep_shape env budget cmd.s2sListener cmd.s2sNetwork
        { (s.addEvent .procStart) with
          trace := (s.addEvent .procStart).trace ++ tp1 }
    rw [h2]
    cases res2 with
    | some e =>
      refine ⟨tp1 ++ tp2, [], ?_, fun e2 he2 => ?_, by simp, ?_, ?_, ?_,
        ?_, ?_, ?_⟩
      · simp [Sys.addEvent]
      · rcases List.mem_append.1 he2 with he2 | he2
        · exact Or.inl (h1conn e2 he2)
        · exact Or.inr (h2conn e2 he2)
      · simp only [List.length_append]
        omega
      · intro l hres
        simp at hres
      · intro l hres
        simp at hres
      · intro l hl hf
        exact absurd rfl (h1ex l hl hf)
      · intro l hl hf
        exact ⟨by simp, rfl⟩
      · intro hc hs
        rw [h1none hc, h2none hs]
        simp
    | none =>
      obtain ⟨td, res3, h3, h3def⟩ := deferStep_shape env cmd.deferF
        { { (s.addEvent .procStart) with
            trace := (s.addEvent .procStart).trace ++ tp1 } with
          trace := { (s.addEvent .procStart) with
            trace := (s.addEvent .procStart).trace ++ tp1 }.trace ++ tp2 }
      rw [h3]
      refine ⟨tp1 ++ tp2, td, ?_, fun e2 he2 => ?_, h3def, ?_, ?_, ?_,
        ?_, ?_, ?_⟩
      · simp [Sys.addEvent]
      · rcases List.mem_append.1 he2 with he2 | he2
        · exact Or.inl (h1conn e2 he2)
        · exact Or.inr (h2conn e2 he2)
      · simp only [List.length_append]
        omega
      · intro l _ hl
        exact List.mem_append_left _ (h1mem l hl rfl)
      · intro l _ hl
        exact List.mem_append_right _ (h2mem l hl rfl)
      · intro l hl hf
        exact absurd rfl (h1ex l hl hf)
      · intro l hl hf
        exact absurd rfl (h2ex l hl hf)
      · intro hc hs
        rw [h1none hc, h2none hs]
        simp
